import Mathlib

/-!
Verification of the news-crawler pipeline (UnifiedNews / a_stock_news).

The Python source is shallowly embedded:
* timestamps are integers (seconds on a single UTC+8 axis; the spiders
  normalise every aware/naive datetime to that offset before comparing,
  so one total order on ℤ models the comparisons faithfully);
* network fetching and HTML parsing are oracles: each pipeline takes a
  `fetch`/`parse` function `String → Option record` standing for the
  already-extracted fields of one article page, and the decision logic
  that the source applies to those fields is embedded verbatim;
* Python strings are `String` (a sequence of code points, exactly like
  Python's `str`), so `s[:n]` is `List.take n` on `String.data`.
-/

/-! ## String helpers (Python `in`, `lower`, `endswith`, slicing) -/

/-- `listIsPre n h` decides whether `n` is a prefix of `h`. -/
def listIsPre [DecidableEq α] : List α → List α → Bool
  | [], _ => true
  | _ :: _, [] => false
  | a :: as, b :: bs => a = b && listIsPre as bs

/-- Substring search: does `needle` occur inside `hay`?  (Python `needle in hay`;
the empty needle matches, as in Python.) -/
def listSearch [DecidableEq α] (needle : List α) : List α → Bool
  | [] => listIsPre needle []
  | c :: rest => listIsPre needle (c :: rest) || listSearch needle rest

/-- Python `needle in hay` on strings. -/
def strContains (hay needle : String) : Bool :=
  listSearch needle.data hay.data

/-- Python `str.lower`, modelled on the code-point map (identical to Python on
the ASCII letters and on CJK text, the character sets these spiders filter). -/
def pyLower (s : String) : String :=
  String.mk (s.data.map Char.toLower)

/-- Python `str.endswith`. -/
def pyEndsWith (s suffix : String) : Bool :=
  listIsPre suffix.data.reverse s.data.reverse

/-- Python `s[:n]` on a `str`: the first `n` code points. -/
def pySlice (n : Nat) (s : String) : String :=
  String.mk (s.data.take n)

/-- A string of `n` copies of `c`. -/
def repChar (c : Char) (n : Nat) : String :=
  String.mk (List.replicate n c)

/-- Pattern search at every start position (Python `re.search` tries each
position left to right; existence of a match is all the spiders use). -/
def searchPos (p : List Char → Bool) : List Char → Bool
  | [] => p []
  | c :: rest => p (c :: rest) || searchPos p rest

/-! ## Generic list machinery shared by the pipelines -/

/-- First-seen-order deduplication by a key, as the Python `seen`-set loops do. -/
def dedupByKey [DecidableEq β] (key : α → β) (seen : List β) : List α → List α
  | [] => []
  | x :: xs =>
    if seen.contains (key x) then dedupByKey key seen xs
    else x :: dedupByKey key (key x :: seen) xs

/-- Stable descending insertion by an integer key: `x` is placed before the
first element with a strictly smaller key, after equal keys.  This is the
result of Python's stable `list.sort(key=…, reverse=True)`. -/
def insertDescBy (key : α → Int) (x : α) : List α → List α
  | [] => [x]
  | y :: ys => if key y ≤ key x then x :: y :: ys else y :: insertDescBy key x ys

/-- `rows.sort(key=…, reverse=True)` — stable sort, newest first. -/
def sortDescBy (key : α → Int) : List α → List α
  | [] => []
  | x :: xs => insertDescBy key x (sortDescBy key xs)

/-- The append-then-check collection loop used by eastmoney/cs/stcn
`fetch_list`: process candidates in order, keep the survivors, and `break`
as soon as the kept list has reached `limit` (checked after each append). -/
def collectAfter (proc : σ → Option α) (limit : Nat) : List σ → List α → List α
  | [], rows => rows
  | u :: rest, rows =>
    match proc u with
    | none => collectAfter proc limit rest rows
    | some a =>
      let rows' := rows ++ [a]
      if limit ≤ rows'.length then rows' else collectAfter proc limit rest rows'

/-- The check-then-process loop of ths `fetch_list`: the limit test happens at
the top of the loop body, before the next candidate is fetched. -/
def collectBefore (proc : σ → Option α) (limit : Nat) : List σ → List α → List α
  | [], rows => rows
  | u :: rest, rows =>
    if limit ≤ rows.length then rows
    else
      match proc u with
      | none => collectBefore proc limit rest rows
      | some a => collectBefore proc limit rest (rows ++ [a])

/-! ## Time axis -/

/-- Seconds in one day (`timedelta(days=1)`). -/
def daySecs : Int := 86400

/-! ## eastmoney.py -/

/-- One eastmoney article record (`_fetch_article`'s dict plus the `category`
that `fetch_list` stamps on it).  `pub_time` is `None` when `_pick_time`
found no parsable date. -/
structure EmArt where
  title : String
  url : String
  pub_time : Option Int
  source : String := "eastmoney"
  summary : String
  category : String
deriving DecidableEq

/-- The decision core of eastmoney `_fetch_article` after a successful fetch:
with the extracted `title`, `pub_time` and `summary` in hand, the page is
rejected (`return None`) exactly when the title is empty. -/
def emFetchArticleParse (title : String) (pub : Option Int) (summary : String)
    (url : String) : Option EmArt :=
  if title = "" then none
  else some { title := title, url := url, pub_time := pub, summary := summary, category := "" }

/-- `cutoff = dt.datetime.now() - dt.timedelta(days=since_days)`. -/
def emCutoff (now since_days : Int) : Int := now - daySecs * since_days

/-- eastmoney `fetch_list`'s recency test, lines 233–235:
`if pt and pt < cutoff: continue` — only a *known* time before the cutoff
drops the record; an unparsed time (`None`) never does. -/
def emRecencyDrop (cutoff : Int) (pub : Option Int) : Bool :=
  match pub with
  | some pt => pt < cutoff
  | none => false

/-- eastmoney `fetch_list`'s keyword test, lines 238–244: lower-cased keyword
against the lower-cased title and, separately, the lower-cased summary.
`if keyword:` is false for `None` and for the empty string. -/
def emKeywordKeep (keyword : Option String) (title summary : String) : Bool :=
  match keyword with
  | none => true
  | some kw =>
    if kw = "" then true
    else strContains (pyLower title) (pyLower kw) || strContains (pyLower summary) (pyLower kw)

/-- One iteration of the eastmoney `fetch_list` candidate loop: fetch-and-parse
the url (the `fetch` oracle is `_fetch_article`), stamp the channel category,
then apply the recency and keyword filters in the source's order. -/
def emProcess (fetch : String → Option EmArt) (cutoff : Int) (keyword : Option String)
    (cand : String × String) : Option EmArt :=
  match fetch cand.1 with
  | none => none
  | some a0 =>
    let a := { a0 with category := cand.2 }
    if emRecencyDrop cutoff a.pub_time then none
    else if emKeywordKeep keyword a.title a.summary then some a else none

/-- `r.get("pub_time") or dt.datetime.min` rendered on the integer time axis:
`datetime.min` (year 1) is `-62135596800` seconds before the epoch. -/
def emDtMin : Int := -62135596800

/-- Sort key of eastmoney `fetch_list` line 251. -/
def emKey (a : EmArt) : Int := (a.pub_time).getD emDtMin

/-- eastmoney `fetch_list` (lines 201–252): dedupe candidates by url keeping the
first occurrence, collect filtered articles breaking once `limit` is reached,
then sort newest-first and truncate to `limit`. -/
def emFetchList (fetch : String → Option EmArt) (candidates : List (String × String))
    (limit : Nat) (since_days : Int) (keyword : Option String) (now : Int) : List EmArt :=
  let deduped := dedupByKey Prod.fst [] candidates
  let rows := collectAfter (emProcess fetch (emCutoff now since_days) keyword) limit deduped []
  (sortDescBy emKey rows).take limit

/-! eastmoney `_is_article_like` (lines 86–93) and its date regex
(slash, "20", two digits, optional dash-or-slash, 1–2 digits, optional
dash-or-slash, 1–2 digits). -/

/-- Drop one date separator (optional dash-or-slash) if present.  Consuming a present
separator never loses a match, because the next expected token is a digit
and `-`/`/` are not digits; this determinises the optional group. -/
def dropDateSep : List Char → List Char
  | c :: rest => if c = '-' || c = '/' then rest else c :: rest
  | [] => []

/-- Does the eastmoney date regex match at this position?
`\d{1,2}` needs only its one mandatory digit for a match to exist: if a
second digit follows, the shorter parse also succeeds (the following
optional separator matches empty and the digit feeds the next group). -/
def emDateAt : List Char → Bool
  | '/' :: '2' :: '0' :: a :: b :: rest =>
    a.isDigit && b.isDigit &&
      (match dropDateSep rest with
       | c :: r2 =>
         c.isDigit &&
           (match dropDateSep r2 with
            | d :: _ => d.isDigit
            | [] => false)
       | [] => false)
  | _ => false

/-- eastmoney `_is_article_like`: the "domain" test is plain substring
containment of `"eastmoney.com"` in the *whole url*, then any of the three
article shapes (`/a/` segment, date-stamped path, `.html` suffix). -/
def emIsArticleLike (url : String) : Bool :=
  if !strContains url "eastmoney.com" then false
  else strContains url "/a/" || searchPos emDateAt url.data || pyEndsWith url ".html"

/-- The truncation step of eastmoney `_pick_summary` (line 169):
`" ".join(p for p in ps if p)[:200]` over the cleaned paragraph texts. -/
def emSummaryOfParas (paras : List String) : String :=
  pySlice 200 (String.intercalate " " (paras.filter (fun p => p ≠ "")))

/-! ## ths.py (同花顺) -/

/-- One ths article.  The source stores `published_at` as the ISO rendering of
the parsed time (`""` when none) and `fetch_list` parses it straight back with
`datetime.fromisoformat`; that lossless round trip is modelled by carrying the
parsed time itself in `pub`. -/
structure ThsArt where
  title : String
  url : String
  pub : Option Int
  summary : String
deriving DecidableEq

/-- ths `_is_recent` (lines 99–103): a record without a parsed time counts as
recent; otherwise the inclusive cutoff `pub >= now - timedelta(days=since_days)`. -/
def thsIsRecent (pub : Option Int) (since_days now : Int) : Bool :=
  match pub with
  | none => true
  | some p => now - daySecs * since_days ≤ p

/-- ths `fetch_list`'s keyword test (lines 309–313): the lower-cased keyword
against the lower-cased concatenation `title + " " + summary`. -/
def thsKeywordKeep (keyword : Option String) (title summary : String) : Bool :=
  match keyword with
  | none => true
  | some kw =>
    if kw = "" then true
    else strContains (pyLower (title ++ " " ++ summary)) (pyLower kw)

/-- One iteration of the ths `fetch_list` loop body below the limit check:
fetch (`_fetch_article`, which already rejects pages without a title), then
the recency and keyword filters. -/
def thsProcess (fetch : String → Option ThsArt) (since_days : Int)
    (keyword : Option String) (now : Int) (url : String) : Option ThsArt :=
  match fetch url with
  | none => none
  | some item =>
    if !thsIsRecent item.pub since_days now then none
    else if thsKeywordKeep keyword item.title item.summary then some item else none

/-- ths `fetch_list` (lines 270–317): dedupe the channel candidates, then the
check-then-fetch loop.  No sorting happens afterwards — the rows come back in
candidate (discovery) order. -/
def thsFetchList (fetch : String → Option ThsArt) (candidates : List String)
    (limit : Nat) (since_days : Int) (keyword : Option String) (now : Int) : List ThsArt :=
  let deduped := dedupByKey id [] candidates
  collectBefore (thsProcess fetch since_days keyword now) limit deduped []

/-- The truncation step of ths `_extract_summary` (lines 201–207):
`return text[:300] if text else None` for the joined container text. -/
def thsSummaryTrunc (text : String) : Option String :=
  if text = "" then none else some (pySlice 300 text)

/-! ## URL splitting (`urllib.parse.urlparse`), for the cs/stcn predicates.

Modelled for the URLs these predicates see: absolute `http(s)` URLs,
scheme-relative `//host/path` URLs, and scheme-less relative paths.  The
netloc is the text between the first `://` (or a leading `//`) and the next
`/`, `?` or `#`; the scheme is the text before that `://`; the path is what
follows the netloc up to `?` or `#`. -/

/-- Split off `scheme ++ "://"`: returns the scheme's characters and the rest.
A `/` before any `://` means the string has no scheme-plus-netloc part. -/
def splitSchemeAux (acc : List Char) : List Char → Option (List Char × List Char)
  | ':' :: '/' :: '/' :: rest => some (acc.reverse, rest)
  | '/' :: _ => none
  | c :: rest => splitSchemeAux (c :: acc) rest
  | [] => none

/-- Is this character a netloc terminator? -/
def netlocEnd (c : Char) : Bool := c = '/' || c = '?' || c = '#'

/-- `urlparse(href).netloc`. -/
def urlNetloc (s : String) : String :=
  let afterScheme : Option (List Char) :=
    match s.data with
    | '/' :: '/' :: rest => some rest
    | cs => (splitSchemeAux [] cs).map Prod.snd
  match afterScheme with
  | some rest => String.mk (rest.takeWhile (fun c => !netlocEnd c))
  | none => ""

/-- `urlparse(href).scheme` (urlparse lower-cases the scheme). -/
def urlScheme (s : String) : String :=
  match splitSchemeAux [] s.data with
  | some (sch, _) => pyLower (String.mk sch)
  | none => ""

/-- `urlparse(href).path`: what follows the netloc (or the whole string when
there is no netloc), with any query/fragment stripped. -/
def urlPath (s : String) : String :=
  let rest : List Char :=
    match s.data with
    | '/' :: '/' :: r => r.dropWhile (fun c => !netlocEnd c)
    | cs =>
      match splitSchemeAux [] cs with
      | some (_, r) => r.dropWhile (fun c => !netlocEnd c)
      | none => cs
  String.mk (rest.takeWhile (fun c => c != '?' && c != '#'))

/-! ## cs.py (a_stock_news, 中国证券报) -/

/-- One cs record, as built by `_parse_detail`. -/
structure CsArt where
  url : String
  title : String
  pub_dt : Option Int
  content : String
  source : String := "cs"
deriving DecidableEq

/-- The decision core of cs `_parse_detail` (lines 191–200) after the page was
fetched and the fields extracted: the page is rejected only when *both* the
title and the content are empty; otherwise a record is returned, its title
possibly empty. -/
def csParseDetail (title : String) (pub : Option Int) (content : String)
    (url : String) : Option CsArt :=
  if title = "" ∧ content = "" then none
  else some { url := url, title := title, pub_dt := pub, content := content }

/-- `since_edge` of cs `fetch_list` (lines 235–237): set only when `since_days`
is truthy (not `None`, not `0`). -/
def csSinceEdge (now : Int) (since_days : Option Int) : Option Int :=
  match since_days with
  | none => none
  | some d => if d = 0 then none else some (now - daySecs * d)

/-- cs `fetch_list`'s recency test (lines 245–252): a record is dropped only
when the edge exists, the publish time is known, and it lies before the edge
(the timezone normalisation is the identity on the single time axis). -/
def csRecencyDrop (since_edge : Option Int) (pub : Option Int) : Bool :=
  match since_edge, pub with
  | some e, some t => t < e
  | _, _ => false

/-- cs `fetch_list`'s keyword test (lines 254–259): the lower-cased keyword
against the lower-cased concatenation `title + " " + content`. -/
def csKeywordKeep (keyword : Option String) (title content : String) : Bool :=
  match keyword with
  | none => true
  | some kw =>
    if kw = "" then true
    else strContains (pyLower (title ++ " " ++ content)) (pyLower kw)

/-- One iteration of the cs `fetch_list` detail loop: `_parse_detail` (the
`parse` oracle), then the recency and keyword filters. -/
def csProcess (parse : String → Option CsArt) (since_edge : Option Int)
    (keyword : Option String) (url : String) : Option CsArt :=
  match parse url with
  | none => none
  | some d =>
    if csRecencyDrop since_edge d.pub_dt then none
    else if csKeywordKeep keyword d.title d.content then some d else none

/-- `datetime(1970, 1, 1, tzinfo=CST)`, the missing-time sentinel of the cs
sort key, rendered as the origin of the integer time axis. -/
def csEpoch : Int := 0

/-- Sort key of cs `fetch_list` lines 266–272. -/
def csKey (d : CsArt) : Int := (d.pub_dt).getD csEpoch

/-- cs `fetch_list` (lines 212–275): dedupe the channel urls, cap the candidate
list at `max(limit*3, 150)`, run the detail loop (break once `limit` rows are
collected, checked after each append), then sort newest-first.  Note there is
no truncation after the sort. -/
def csFetchList (parse : String → Option CsArt) (allUrls : List String)
    (limit : Nat) (since_days : Option Int) (keyword : Option String) (now : Int) : List CsArt :=
  let uniq := dedupByKey id [] allUrls
  let candidate := uniq.take (max (limit * 3) 150)
  let results := collectAfter (csProcess parse (csSinceEdge now since_days) keyword) limit candidate []
  sortDescBy csKey results

/-- cs `_is_article_like` (lines 90–103): the host test is substring
containment of `"www.cs.com.cn"` in the netloc (and is skipped entirely when
the netloc is empty), then a `.shtml`/`.html` suffix on the lower-cased href,
then the exclusion list of index/navigation markers. -/
def csBadMarkers : List String := ["index.html", "index.shtml", "/roll/index", "/xwzx/index"]

/-- cs `_is_article_like`. -/
def csIsArticleLike (href : String) : Bool :=
  if href = "" then false
  else
    let netloc := urlNetloc href
    if netloc ≠ "" && !strContains netloc "www.cs.com.cn" then false
    else if !(pyEndsWith (pyLower href) ".shtml" || pyEndsWith (pyLower href) ".html") then false
    else if csBadMarkers.any (fun b => strContains href b) then false
    else true

/-! ## stcn.py (UnifiedNews, 证券时报) -/

/-- UnifiedNews stcn `fetch_list`'s recency test (lines 312–316):
`if since_days and d.get("pub_dt"):` — the drop can only happen when
`since_days` is truthy *and* the publish time was parsed. -/
def stcnUNRecencyDrop (since_days : Option Int) (pub : Option Int) (now : Int) : Bool :=
  match since_days, pub with
  | some sd, some t => if sd = 0 then false else t < now - daySecs * sd
  | _, _ => false

/-! ## stcn.py (a_stock_news, 快讯) — `_looks_like_article` (lines 87–105) -/

/-- First date pattern of `_looks_like_article`: slash, "20", two digits, a
separator among dash/slash/underscore, two digits, then an optional
day group.  The optional trailing group can always match empty, so a match
exists exactly when the mandatory prefix matches. -/
def stcnDate1At : List Char → Bool
  | '/' :: '2' :: '0' :: a :: b :: s :: c :: d :: _ =>
    a.isDigit && b.isDigit && (s = '-' || s = '/' || s = '_') && c.isDigit && d.isDigit
  | _ => false

/-- Second date pattern: slash, "20", two digits, a month (`01`–`12`), an
optional two-digit day, then a closing slash.  Both alternatives of the
optional day group are tried, as the regex engine backtracks. -/
def stcnDate2At : List Char → Bool
  | '/' :: '2' :: '0' :: a :: b :: m1 :: m2 :: rest =>
    a.isDigit && b.isDigit &&
      ((m1 = '0' && '1' ≤ m2 && m2 ≤ '9') || (m1 = '1' && (m2 = '0' || m2 = '1' || m2 = '2'))) &&
      (match rest with
       | '/' :: _ => true
       | c :: d :: '/' :: _ => c.isDigit && d.isDigit
       | _ => false)
  | _ => false

/-- a_stock_news stcn `_looks_like_article`: scheme must start with "http",
the host must equal `kuaixun.stcn.com` exactly, the (lower-cased) path must
end in `.shtml`/`.html`, and one of the two date patterns must occur in it. -/
def stcnLooksLikeArticle (href : String) : Bool :=
  if !listIsPre "http".data (urlScheme href).data then false
  else
    let host := pyLower (urlNetloc href)
    if host ≠ "kuaixun.stcn.com" then false
    else
      let path := pyLower (urlPath href)
      if !(pyEndsWith path ".shtml" || pyEndsWith path ".html") then false
      else searchPos stcnDate1At path.data || searchPos stcnDate2At path.data

/-! ## main.py (UnifiedNews) — CSV export and run boundary -/

/-- A record row as the CSV layer sees it: an association list of field name
to rendered value (Python dict, keys unique, insertion-ordered). -/
abbrev Row : Type := List (String × String)

/-- The union of all field names over the rows (Python builds a `set`; only
membership and the later sort are observable, so first-seen order is fine). -/
def keysOf (rows : List Row) : List String :=
  dedupByKey id [] (rows.flatMap (fun r => r.map Prod.fst))

/-- The priority list of `_union_fieldnames` (line 41) — note `"site"`, not
`"source"`. -/
def priorityFields : List String := ["site", "title", "url", "pub_time", "summary"]

/-- String comparison used to model Python `sorted` on the field names
(both compare code-point-lexicographically). -/
def strAsc (a b : String) : Bool := decide (a < b)

/-- Stable ascending insertion for `sorted`. -/
def insertStr (x : String) : List String → List String
  | [] => [x]
  | y :: ys => if strAsc x y then x :: y :: ys else y :: insertStr x ys

/-- Python `sorted` on a list of strings. -/
def sortStrings : List String → List String
  | [] => []
  | x :: xs => insertStr x (sortStrings xs)

/-- `ordered = [k for k in priority if k in keys]`. -/
def unionOrdered (rows : List Row) : List String :=
  priorityFields.filter (fun k => (keysOf rows).contains k)

/-- `extra = sorted(k for k in keys if k not in ordered)`. -/
def unionExtra (rows : List Row) : List String :=
  sortStrings ((keysOf rows).filter (fun k => !(unionOrdered rows).contains k))

/-- `_union_fieldnames` (lines 39–47). -/
def unionFieldnames (rows : List Row) : List String :=
  unionOrdered rows ++ unionExtra rows

/-- Modelled from the spec: the header the claim describes, with `source`
among the priority fields (title, url, publish time, source, summary) —
to be compared with `unionFieldnames`, which the code actually computes. -/
def claimPriorityFields : List String := ["title", "url", "pub_time", "source", "summary"]

/-- Modelled from the spec: the claim's header derivation. -/
def claimUnionFieldnames (rows : List Row) : List String :=
  let ordered := claimPriorityFields.filter (fun k => (keysOf rows).contains k)
  ordered ++ sortStrings ((keysOf rows).filter (fun k => !ordered.contains k))

/-- One data row as `csv.DictWriter(..., extrasaction="ignore")` emits it
(lines 50–55): exactly the derived columns, fields outside them dropped,
missing fields rendered as the empty-string `restval`. -/
def writeCsvRow (fieldnames : List String) (r : Row) : List String :=
  fieldnames.map (fun f => (((r.find? (fun kv => kv.1 == f)).map Prod.snd).getD ""))

/-- `dump_csv` (lines 58–77) as the file content it produces: `none` when the
row set is empty (warn and return — no file is created or touched), otherwise
the header plus one data row per record.  (The `PermissionError` alternate
path changes only the file name, not the content.) -/
def dumpCsv (rows : List Row) : Option (List String × List (List String)) :=
  if rows.isEmpty then none
  else
    let fieldnames := unionFieldnames rows
    some (fieldnames, rows.map (writeCsvRow fieldnames))

/-- `main` (lines 104–119) observed as (exit code, file written):
a completed `run_source` returns 0; an exception is logged and re-raised,
which ends the process with a non-zero status. -/
def mainExit (fetched : Except String (List Row)) : Nat × Option (List String × List (List String)) :=
  match fetched with
  | .ok rows => (0, dumpCsv rows)
  | .error _ => (1, none)

/-! ## eastmoney `_try_get` (lines 52–69) — retry with backoff -/

/-- What one `client.get(url)` + `raise_for_status()` attempt can produce. -/
inductive GetOutcome where
  | ok
  | httpErr (status : Nat)
  | reqErr
deriving DecidableEq

/-- What `_try_get` as a whole can do. -/
inductive TryGetRes where
  | success
  | raised (e : GetOutcome)
  | assertFailed
deriving DecidableEq

/-- An outcome the loop retries on: a request error (timeout/connection) or an
HTTP status error other than 404/410. -/
def retryable : GetOutcome → Bool
  | .ok => false
  | .httpErr s => !(s = 404 || s = 410)
  | .reqErr => true

/-- The `for i in range(retries)` loop of `_try_get`: `resp i` is the outcome
of attempt `i`; `last` is `last_err`; the fuel is the attempts remaining.
Returns the result together with the number of attempts actually made.
A 404/410 status error re-raises on the spot; when the loop ends, the last
error is raised (`assert last_err is not None` fails only if `retries == 0`). -/
def tryGetGo (resp : Nat → GetOutcome) (i : Nat) (last : Option GetOutcome) :
    Nat → TryGetRes × Nat
  | 0 =>
    (match last with
     | some e => (.raised e, i)
     | none => (.assertFailed, i))
  | n + 1 =>
    match resp i with
    | .ok => (.success, i + 1)
    | .httpErr s =>
      if s = 404 || s = 410 then (.raised (.httpErr s), i + 1)
      else tryGetGo resp (i + 1) (some (.httpErr s)) n
    | .reqErr => tryGetGo resp (i + 1) (some .reqErr) n

/-- `_try_get(client, url, retries, backoff)`. -/
def tryGet (resp : Nat → GetOutcome) (retries : Nat) : TryGetRes × Nat :=
  tryGetGo resp 0 none retries

/-- The sleep after attempt `i`: `sleep = backoff ** i; time.sleep(sleep if
sleep < 5 else 5)`.  The default backoff `1.5` is exactly `3/2`, so rationals
model the float arithmetic exactly for the attempt counts involved. -/
def backoffSleep (backoff : ℚ) (i : Nat) : ℚ :=
  let s := backoff ^ i
  if s < 5 then s else 5

/-- The claim's notion of a case-insensitive keyword hit inside one field:
the lower-cased keyword occurs in the lower-cased field. -/
def occursCI (kw s : String) : Bool := strContains (pyLower s) (pyLower kw)

/-! ## Lemmas about the generic machinery -/

theorem mem_insertDescBy (key : α → Int) (x a : α) (l : List α) :
    a ∈ insertDescBy key x l ↔ a = x ∨ a ∈ l := by
  induction l with
  | nil => simp [insertDescBy]
  | cons y ys ih =>
    rw [insertDescBy]
    by_cases hc : key y ≤ key x
    · simp [if_pos hc]
    · simp [if_neg hc, ih]
      tauto

theorem mem_sortDescBy (key : α → Int) (a : α) (l : List α) :
    a ∈ sortDescBy key l ↔ a ∈ l := by
  induction l with
  | nil => simp [sortDescBy]
  | cons y ys ih => simp [sortDescBy, mem_insertDescBy, ih]

theorem length_insertDescBy (key : α → Int) (x : α) (l : List α) :
    (insertDescBy key x l).length = l.length + 1 := by
  induction l with
  | nil => simp [insertDescBy]
  | cons y ys ih =>
    rw [insertDescBy]
    by_cases hc : key y ≤ key x
    · simp [if_pos hc]
    · simp [if_neg hc, ih]

theorem length_sortDescBy (key : α → Int) (l : List α) :
    (sortDescBy key l).length = l.length := by
  induction l with
  | nil => rfl
  | cons y ys ih => simp [sortDescBy, length_insertDescBy, ih]

theorem pairwise_insertDescBy (key : α → Int) (x : α) (l : List α)
    (h : l.Pairwise (fun a b => key b ≤ key a)) :
    (insertDescBy key x l).Pairwise (fun a b => key b ≤ key a) := by
  induction l with
  | nil => simp [insertDescBy]
  | cons y ys ih =>
    rcases List.pairwise_cons.mp h with ⟨hy, hys⟩
    rw [insertDescBy]
    by_cases hc : key y ≤ key x
    · rw [if_pos hc]
      refine List.pairwise_cons.mpr ⟨?_, h⟩
      intro b hb
      rcases List.mem_cons.mp hb with rfl | hb
      · exact hc
      · exact le_trans (hy b hb) hc
    · rw [if_neg hc]
      refine List.pairwise_cons.mpr ⟨?_, ih hys⟩
      intro b hb
      rcases (mem_insertDescBy key x b ys).mp hb with rfl | hb
      · omega
      · exact hy b hb

theorem pairwise_sortDescBy (key : α → Int) (l : List α) :
    (sortDescBy key l).Pairwise (fun a b => key b ≤ key a) := by
  induction l with
  | nil => simp [sortDescBy]
  | cons y ys ih => exact pairwise_insertDescBy key y _ ih

/-- In a newest-first list whose real timestamps all lie strictly above the
missing-time sentinel, a record without a timestamp is never followed by one
with a timestamp. -/
theorem pairwise_none_last (key : α → Int) (pub : α → Option Int) (s : Int)
    (hk : ∀ a, key a = (pub a).getD s) (l : List α)
    (hs : l.Pairwise (fun a b => key b ≤ key a))
    (ht : ∀ a ∈ l, ∀ t, pub a = some t → s < t) :
    l.Pairwise (fun a b => pub a = none → pub b = none) := by
  induction l with
  | nil => simp
  | cons x xs ih =>
    rcases List.pairwise_cons.mp hs with ⟨hx, hxs⟩
    refine List.pairwise_cons.mpr
      ⟨?_, ih hxs (fun a ha t h => ht a (List.mem_cons_of_mem _ ha) t h)⟩
    intro b hb hxnone
    have hkb := hx b hb
    rw [hk x, hk b, hxnone] at hkb
    cases hpb : pub b with
    | none => rfl
    | some t =>
      exfalso
      have := ht b (List.mem_cons_of_mem _ hb) t hpb
      rw [hpb] at hkb
      simp at hkb
      omega

theorem collectAfter_length (proc : σ → Option α) (limit : Nat) (l : List σ)
    (rows : List α) (h : rows.length < limit) :
    (collectAfter proc limit l rows).length ≤ limit := by
  induction l generalizing rows with
  | nil => simpa [collectAfter] using Nat.le_of_lt h
  | cons u rest ih =>
    rw [collectAfter]
    cases proc u with
    | none => exact ih rows h
    | some a =>
      simp only []
      by_cases hl : limit ≤ (rows ++ [a]).length
      · rw [if_pos hl]
        simp only [List.length_append, List.length_cons, List.length_nil]
        omega
      · rw [if_neg hl]
        refine ih (rows ++ [a]) ?_
        simp only [List.length_append, List.length_cons, List.length_nil] at hl ⊢
        omega

theorem collectBefore_length (proc : σ → Option α) (limit : Nat) (l : List σ)
    (rows : List α) (h : rows.length ≤ limit) :
    (collectBefore proc limit l rows).length ≤ limit := by
  induction l generalizing rows with
  | nil => simpa [collectBefore] using h
  | cons u rest ih =>
    rw [collectBefore]
    by_cases hl : limit ≤ rows.length
    · rw [if_pos hl]; exact h
    · rw [if_neg hl]
      cases proc u with
      | none => exact ih rows h
      | some a =>
        refine ih (rows ++ [a]) ?_
        simp only [List.length_append, List.length_cons, List.length_nil]
        omega

theorem mem_collectAfter (proc : σ → Option α) (limit : Nat) (l : List σ)
    (rows : List α) (a : α) (h : a ∈ collectAfter proc limit l rows) :
    a ∈ rows ∨ ∃ u ∈ l, proc u = some a := by
  induction l generalizing rows with
  | nil => exact Or.inl (by simpa [collectAfter] using h)
  | cons u rest ih =>
    rw [collectAfter] at h
    cases hp : proc u with
    | none =>
      rw [hp] at h
      rcases ih rows h with h' | ⟨v, hv, hpv⟩
      · exact Or.inl h'
      · exact Or.inr ⟨v, List.mem_cons_of_mem _ hv, hpv⟩
    | some b =>
      rw [hp] at h
      simp only [] at h
      by_cases hl : limit ≤ (rows ++ [b]).length
      · rw [if_pos hl] at h
        rcases List.mem_append.mp h with h' | h'
        · exact Or.inl h'
        · simp at h'
          exact Or.inr ⟨u, List.mem_cons_self u rest, h' ▸ hp⟩
      · rw [if_neg hl] at h
        rcases ih (rows ++ [b]) h with h' | ⟨v, hv, hpv⟩
        · rcases List.mem_append.mp h' with h'' | h''
          · exact Or.inl h''
          · simp at h''
            exact Or.inr ⟨u, List.mem_cons_self u rest, h'' ▸ hp⟩
        · exact Or.inr ⟨v, List.mem_cons_of_mem _ hv, hpv⟩

theorem collectBefore_eq (proc : σ → Option α) (limit : Nat) (l : List σ)
    (rows : List α) :
    collectBefore proc limit l rows = rows ++ (l.filterMap proc).take (limit - rows.length) := by
  induction l generalizing rows with
  | nil => simp [collectBefore]
  | cons u rest ih =>
    rw [collectBefore]
    by_cases hl : limit ≤ rows.length
    · rw [if_pos hl]
      have : limit - rows.length = 0 := Nat.sub_eq_zero_of_le hl
      simp [this]
    · rw [if_neg hl]
      cases hp : proc u with
      | none => simp [List.filterMap_cons, hp, ih]
      | some a =>
        show collectBefore proc limit rest (rows ++ [a]) = _
        rw [ih (rows ++ [a])]
        have h1 : limit - rows.length = (limit - (rows ++ [a]).length) + 1 := by
          simp only [List.length_append, List.length_cons, List.length_nil]
          omega
        simp [List.filterMap_cons, hp, h1, List.take_succ_cons]

theorem mem_insertStr (x a : String) (l : List String) :
    a ∈ insertStr x l ↔ a = x ∨ a ∈ l := by
  induction l with
  | nil => simp [insertStr]
  | cons y ys ih =>
    rw [insertStr]
    by_cases hc : strAsc x y
    · simp [if_pos hc]
    · simp [if_neg hc, ih]
      tauto

theorem mem_sortStrings (a : String) (l : List String) :
    a ∈ sortStrings l ↔ a ∈ l := by
  induction l with
  | nil => simp [sortStrings]
  | cons y ys ih => simp [sortStrings, mem_insertStr, ih]

theorem pairwise_insertStr (x : String) (l : List String)
    (h : l.Pairwise (fun a b => a ≤ b)) :
    (insertStr x l).Pairwise (fun a b => a ≤ b) := by
  induction l with
  | nil => simp [insertStr]
  | cons y ys ih =>
    rcases List.pairwise_cons.mp h with ⟨hy, hys⟩
    rw [insertStr]
    by_cases hc : strAsc x y
    · rw [if_pos hc]
      have hxy : x ≤ y := le_of_lt (by simpa [strAsc] using hc)
      refine List.pairwise_cons.mpr ⟨?_, h⟩
      intro b hb
      rcases List.mem_cons.mp hb with rfl | hb
      · exact hxy
      · exact le_trans hxy (hy b hb)
    · rw [if_neg hc]
      have hyx : y ≤ x := le_of_not_lt (by simpa [strAsc] using hc)
      refine List.pairwise_cons.mpr ⟨?_, ih hys⟩
      intro b hb
      rcases (mem_insertStr x b ys).mp hb with rfl | hb
      · exact hyx
      · exact hy b hb

theorem pairwise_sortStrings (l : List String) :
    (sortStrings l).Pairwise (fun a b => a ≤ b) := by
  induction l with
  | nil => simp [sortStrings]
  | cons y ys ih => exact pairwise_insertStr y _ ih

/-! ## Claim C1 -/

/-- C1, as stated, is false on the code: with `since_days` set (here `1`), an
eastmoney record whose publish time could not be parsed (`pub_time = none`)
is *not* dropped by the recency filter — it comes back in the returned list. -/
theorem spec_c1_counterexample :
    emFetchList
        (fun _ => some { title := "新闻", url := "u", pub_time := none, summary := "", category := "" })
        [("u", "要闻")] 50 1 none 1000000000
      = [{ title := "新闻", url := "u", pub_time := none, summary := "", category := "要闻" }] := by
  rfl

/-- C1 (amended): in every cited source a record with an unparsed publish time
*bypasses* the recency filter and is retained, not dropped: the
eastmoney/stcn/cs drop tests fire only on a known time before the cutoff,
ths `_is_recent` answers `true` for a missing time, and end to end an
eastmoney record without a timestamp survives into the returned list. -/
theorem spec_c1_unparsed_time_bypasses_recency :
    (∀ cutoff : Int, emRecencyDrop cutoff none = false) ∧
    (∀ since_days now : Int, thsIsRecent none since_days now = true) ∧
    (∀ (since_days : Option Int) (now : Int), stcnUNRecencyDrop since_days none now = false) ∧
    (∀ edge : Option Int, csRecencyDrop edge none = false) ∧
    (∀ (t s u c : String) (since_days now : Int),
      emFetchList (fun _ => some { title := t, url := u, pub_time := none, summary := s, category := "" })
          [(u, c)] 1 since_days none now
        = [{ title := t, url := u, pub_time := none, summary := s, category := c }]) := by
  refine ⟨fun _ => rfl, fun _ _ => rfl, ?_, ?_, fun _ _ _ _ _ _ => rfl⟩
  · intro sd now
    cases sd <;> rfl
  · intro edge
    cases edge <;> rfl

/-! ## Claim C2 -/

/-- C2, as stated, is false on the code, in two ways.  ths `fetch_list` never
sorts: with two recent articles discovered oldest-first it returns them in
that discovery order (publish times `100` then `200`, not descending).  And
cs `fetch_list` checks the limit only *after* appending, so a `limit` of `0`
still returns one record. -/
theorem spec_c2_counterexample :
    (thsFetchList
        (fun u => if u = "u1" then some { title := "老闻", url := "u1", pub := some 100, summary := "" }
                  else some { title := "新闻", url := "u2", pub := some 200, summary := "" })
        ["u1", "u2"] 10 2 none 300
      = [{ title := "老闻", url := "u1", pub := some 100, summary := "" },
         { title := "新闻", url := "u2", pub := some 200, summary := "" }]) ∧
    ¬ List.Pairwise (fun x y : ThsArt => (y.pub).getD emDtMin ≤ (x.pub).getD emDtMin)
        (thsFetchList
          (fun u => if u = "u1" then some { title := "老闻", url := "u1", pub := some 100, summary := "" }
                    else some { title := "新闻", url := "u2", pub := some 200, summary := "" })
          ["u1", "u2"] 10 2 none 300) ∧
    (csFetchList (fun u => csParseDetail "标题" (some 50) "正文" u) ["u"] 0 none none 1000).length = 1 := by
  refine ⟨rfl, ?_, rfl⟩
  intro h
  rw [show thsFetchList
        (fun u => if u = "u1" then some { title := "老闻", url := "u1", pub := some 100, summary := "" }
                  else some { title := "新闻", url := "u2", pub := some 200, summary := "" })
        ["u1", "u2"] 10 2 none 300
      = [{ title := "老闻", url := "u1", pub := some 100, summary := "" },
         { title := "新闻", url := "u2", pub := some 200, summary := "" }] from rfl] at h
  rcases List.pairwise_cons.mp h with ⟨h1, _⟩
  have h2 := h1 _ (List.mem_cons_self _ _)
  simp at h2

/-- C2 (amended): every cited `fetch_list` returns at most `limit` records —
for cs under a positive limit, which is what its append-then-check loop
guarantees — and eastmoney and cs sort newest-first (missing publish times
carrying the far-past sentinel key and, when every real timestamp lies above
the sentinel, sorting last), while ths returns the filtered records in
discovery order, with no sort at all. -/
theorem spec_c2_limit_and_ordering :
    (∀ (fetch : String → Option EmArt) (cands : List (String × String))
        (limit : Nat) (sd : Int) (kw : Option String) (now : Int),
      (emFetchList fetch cands limit sd kw now).length ≤ limit) ∧
    (∀ (fetch : String → Option ThsArt) (cands : List String)
        (limit : Nat) (sd : Int) (kw : Option String) (now : Int),
      (thsFetchList fetch cands limit sd kw now).length ≤ limit) ∧
    (∀ (parse : String → Option CsArt) (urls : List String)
        (limit : Nat) (sd : Option Int) (kw : Option String) (now : Int),
      1 ≤ limit → (csFetchList parse urls limit sd kw now).length ≤ limit) ∧
    (∀ (fetch : String → Option EmArt) (cands : List (String × String))
        (limit : Nat) (sd : Int) (kw : Option String) (now : Int),
      (emFetchList fetch cands limit sd kw now).Pairwise (fun a b => emKey b ≤ emKey a)) ∧
    (∀ (parse : String → Option CsArt) (urls : List String)
        (limit : Nat) (sd : Option Int) (kw : Option String) (now : Int),
      (csFetchList parse urls limit sd kw now).Pairwise (fun a b => csKey b ≤ csKey a)) ∧
    (∀ (fetch : String → Option EmArt) (cands : List (String × String))
        (limit : Nat) (sd : Int) (kw : Option String) (now : Int),
      (∀ a ∈ emFetchList fetch cands limit sd kw now, ∀ t, a.pub_time = some t → emDtMin < t) →
      (emFetchList fetch cands limit sd kw now).Pairwise
        (fun a b => a.pub_time = none → b.pub_time = none)) ∧
    (∀ (parse : String → Option CsArt) (urls : List String)
        (limit : Nat) (sd : Option Int) (kw : Option String) (now : Int),
      (∀ d ∈ csFetchList parse urls limit sd kw now, ∀ t, d.pub_dt = some t → csEpoch < t) →
      (csFetchList parse urls limit sd kw now).Pairwise
        (fun a b => a.pub_dt = none → b.pub_dt = none)) ∧
    (∀ (fetch : String → Option ThsArt) (cands : List String)
        (limit : Nat) (sd : Int) (kw : Option String) (now : Int),
      thsFetchList fetch cands limit sd kw now
        = ((dedupByKey id [] cands).filterMap (thsProcess fetch sd kw now)).take limit) := by
  refine ⟨?_, ?_, ?_, ?_, ?_, ?_, ?_, ?_⟩
  · intro fetch cands limit sd kw now
    simp [emFetchList, List.length_take]
  · intro fetch cands limit sd kw now
    exact collectBefore_length _ _ _ _ (by simp)
  · intro parse urls limit sd kw now hl
    unfold csFetchList
    rw [length_sortDescBy]
    exact collectAfter_length _ _ _ _ (by simpa using hl)
  · intro fetch cands limit sd kw now
    exact (pairwise_sortDescBy emKey _).sublist (List.take_sublist _ _)
  · intro parse urls limit sd kw now
    exact pairwise_sortDescBy csKey _
  · intro fetch cands limit sd kw now ht
    exact pairwise_none_last emKey EmArt.pub_time emDtMin (fun _ => rfl) _
      ((pairwise_sortDescBy emKey _).sublist (List.take_sublist _ _)) ht
  · intro parse urls limit sd kw now ht
    exact pairwise_none_last csKey CsArt.pub_dt csEpoch (fun _ => rfl) _
      (pairwise_sortDescBy csKey _) ht
  · intro fetch cands limit sd kw now
    unfold thsFetchList
    rw [collectBefore_eq]
    simp

/-- Witness for C2's amended theorem at concrete inputs. -/
theorem spec_c2_witness :
    (csFetchList (fun u => csParseDetail "标题" (some 50) "正文" u) ["u"] 5 none none 1000).length ≤ 5 ∧
    (emFetchList (fun _ => some { title := "新闻", url := "u", pub_time := some 999, summary := "", category := "" })
        [("u", "要闻")] 3 1 none 0).Pairwise (fun a b => a.pub_time = none → b.pub_time = none) ∧
    (csFetchList (fun u => csParseDetail "标题" (some 50) "正文" u) ["u"] 2 none none 1000).Pairwise
        (fun a b => a.pub_dt = none → b.pub_dt = none) := by
  refine ⟨spec_c2_limit_and_ordering.2.2.1 _ _ _ _ _ _ (by decide), ?_, ?_⟩
  · apply spec_c2_limit_and_ordering.2.2.2.2.2.1
    intro a ha t htm
    rw [show emFetchList
          (fun _ => some { title := "新闻", url := "u", pub_time := some 999, summary := "", category := "" })
          [("u", "要闻")] 3 1 none 0
        = [{ title := "新闻", url := "u", pub_time := some 999, summary := "", category := "要闻" }] from rfl] at ha
    simp at ha
    subst ha
    simp only [Option.some.injEq] at htm
    subst htm
    decide
  · apply spec_c2_limit_and_ordering.2.2.2.2.2.2.1
    intro d hd t htm
    rw [show csFetchList (fun u => csParseDetail "标题" (some 50) "正文" u) ["u"] 2 none none 1000
        = [{ url := "u", title := "标题", pub_dt := some 50, content := "正文" }] from rfl] at hd
    simp at hd
    subst hd
    simp only [Option.some.injEq] at htm
    subst htm
    decide

/-! ## Claim C3 -/

/-- C3, as stated, is false on the code for cs: `_parse_detail` does return a
record for a page whose extracted title is empty as long as the content is
non-empty, and that empty-title record reaches the final output of
`fetch_list`. -/
theorem spec_c3_counterexample :
    csParseDetail "" (some 50) "非空正文" "u"
        = some { url := "u", title := "", pub_dt := some 50, content := "非空正文" } ∧
    csFetchList (fun u => csParseDetail "" (some 50) "非空正文" u) ["u"] 5 none none 1000
        = [{ url := "u", title := "", pub_dt := some 50, content := "非空正文" }] :=
  ⟨rfl, rfl⟩

/-- C3 (amended): eastmoney's extractor does reject a page whose title is
empty (`return None`, not an error), so every record in its final output has
a non-empty title; cs's `_parse_detail`, however, rejects a page only when
*both* the title and the content are empty, so an empty-title record can
reach cs's output when the content is non-empty. -/
theorem spec_c3_title_nonempty :
    (∀ (t : String) (p : Option Int) (s u : String) (a : EmArt),
      emFetchArticleParse t p s u = some a → a.title ≠ "") ∧
    (∀ fetch : String → Option EmArt, (∀ u a, fetch u = some a → a.title ≠ "") →
      ∀ (cands : List (String × String)) (limit : Nat) (sd : Int) (kw : Option String) (now : Int),
      ∀ a ∈ emFetchList fetch cands limit sd kw now, a.title ≠ "") ∧
    (∀ (t : String) (p : Option Int) (c u : String),
      csParseDetail t p c u = none ↔ (t = "" ∧ c = "")) := by
  refine ⟨?_, ?_, ?_⟩
  · intro t p s u a h
    unfold emFetchArticleParse at h
    by_cases ht : t = ""
    · simp [ht] at h
    · rw [if_neg ht] at h
      have := Option.some.inj h
      subst this
      simpa using ht
  · intro fetch hf cands limit sd kw now a ha
    unfold emFetchList at ha
    have ha2 : a ∈ sortDescBy emKey
        (collectAfter (emProcess fetch (emCutoff now sd) kw) limit (dedupByKey Prod.fst [] cands) []) :=
      (List.take_sublist _ _).subset ha
    rw [mem_sortDescBy] at ha2
    rcases mem_collectAfter _ _ _ _ _ ha2 with h | ⟨u, _, hp⟩
    · simp at h
    · unfold emProcess at hp
      cases hfu : fetch u.1 with
      | none => rw [hfu] at hp; simp at hp
      | some a0 =>
        rw [hfu] at hp
        simp only [] at hp
        split at hp
        · simp at hp
        · split at hp
          · have := Option.some.inj hp
            subst this
            simpa using hf u.1 a0 hfu
          · simp at hp
  · intro t p c u
    unfold csParseDetail
    by_cases h : t = "" ∧ c = ""
    · simp [h]
    · simp [h]

/-- Witness for C3's amended theorem at concrete inputs. -/
theorem spec_c3_witness :
    (∀ a ∈ emFetchList
        (fun _ => some { title := "新闻", url := "u", pub_time := some 5, summary := "", category := "" })
        [("u", "c")] 2 1 none 0, a.title ≠ "") ∧
    ({ title := "头条", url := "v", pub_time := none, summary := "", category := "" } : EmArt).title ≠ "" := by
  constructor
  · apply spec_c3_title_nonempty.2.1
    intro u a h
    simp only [Option.some.injEq] at h
    subst h
    decide
  · exact spec_c3_title_nonempty.1 "头条" none "" "v" _ rfl

/-! ## Claim C4 -/

/-- C4, as stated, is false on the code: eastmoney's "domain" test is
substring containment over the whole URL, so a URL hosted on `evil.com` that
merely mentions `eastmoney.com` in its query string is accepted by
`_is_article_like` (it also has an `/a/` segment), even though its host is
outside the expected domain. -/
theorem spec_c4_counterexample :
    urlNetloc "https://evil.com/a/page?from=eastmoney.com" = "evil.com" ∧
    strContains "evil.com" "eastmoney.com" = false ∧
    emIsArticleLike "https://evil.com/a/page?from=eastmoney.com" = true :=
  ⟨rfl, rfl, rfl⟩

/-- C4 (amended): the rejection side only holds at each source's actual test —
substring containment of the domain string in the whole URL (eastmoney) or in
the netloc (cs), and exact host equality only for a_stock_news stcn; the
acceptance side holds as claimed: an on-domain URL matching the source's
date-stamped article pattern (with the `.shtml`/`.html` suffix stcn also
requires) is accepted. -/
theorem spec_c4_article_predicate :
    (∀ url, strContains url "eastmoney.com" = false → emIsArticleLike url = false) ∧
    (∀ url, strContains url "eastmoney.com" = true → searchPos emDateAt url.data = true →
      emIsArticleLike url = true) ∧
    (∀ href, urlNetloc href ≠ "" → strContains (urlNetloc href) "www.cs.com.cn" = false →
      csIsArticleLike href = false) ∧
    (∀ href, href ≠ "" → strContains (urlNetloc href) "www.cs.com.cn" = true →
      (pyEndsWith (pyLower href) ".shtml" || pyEndsWith (pyLower href) ".html") = true →
      csBadMarkers.any (fun b => strContains href b) = false →
      csIsArticleLike href = true) ∧
    (∀ href, pyLower (urlNetloc href) ≠ "kuaixun.stcn.com" → stcnLooksLikeArticle href = false) ∧
    (∀ href, listIsPre "http".data (urlScheme href).data = true →
      pyLower (urlNetloc href) = "kuaixun.stcn.com" →
      (pyEndsWith (pyLower (urlPath href)) ".shtml" || pyEndsWith (pyLower (urlPath href)) ".html") = true →
      searchPos stcnDate1At (pyLower (urlPath href)).data = true →
      stcnLooksLikeArticle href = true) := by
  refine ⟨?_, ?_, ?_, ?_, ?_, ?_⟩
  · intro url h
    simp [emIsArticleLike, h]
  · intro url h1 h2
    simp [emIsArticleLike, h1, h2]
  · intro href h1 h2
    by_cases he : href = ""
    · simp [csIsArticleLike, he]
    · simp [csIsArticleLike, he, h1, h2]
  · intro href h0 h1 h2 h3
    simp [csIsArticleLike, h0, h1, h2, h3]
  · intro href h
    by_cases hs : listIsPre "http".data (urlScheme href).data
    · simp [stcnLooksLikeArticle, hs, h]
    · simp [stcnLooksLikeArticle, hs]
  · intro href h1 h2 h3 h4
    simp [stcnLooksLikeArticle, h1, h2, h3, h4]

/-- Witness for C4's amended theorem at concrete URLs. -/
theorem spec_c4_witness :
    emIsArticleLike "https://finance.sina.com.cn/roll/x" = false ∧
    emIsArticleLike "https://finance.eastmoney.com/a/202408301234.html" = true ∧
    csIsArticleLike "https://www.stcn.com/article/detail.html" = false ∧
    csIsArticleLike "https://www.cs.com.cn/xwzx/hg/202504/t20250401_123.shtml" = true ∧
    stcnLooksLikeArticle "https://www.cs.com.cn/roll/x.html" = false ∧
    stcnLooksLikeArticle "https://kuaixun.stcn.com/2025-04/01/page.html" = true := by
  refine ⟨spec_c4_article_predicate.1 _ (by decide),
    spec_c4_article_predicate.2.1 _ (by decide) (by decide),
    spec_c4_article_predicate.2.2.1 _ (by decide) (by decide),
    spec_c4_article_predicate.2.2.2.1 _ (by decide) (by decide) (by decide) (by decide),
    spec_c4_article_predicate.2.2.2.2.1 _ (by decide),
    spec_c4_article_predicate.2.2.2.2.2 _ (by decide) (by decide) (by decide) (by decide)⟩

/-! ## Claim C5 -/

set_option maxRecDepth 4000 in
/-- C5, as stated, is false on the code: ths truncates a 400-character body to
300 characters by a plain slice — the result does not end with an ellipsis
marker (neither `…` nor `...`), and the cut falls mid-token (the same word
continues right after the 300th character). -/
theorem spec_c5_counterexample :
    thsSummaryTrunc (repChar 'a' 400) = some (repChar 'a' 300) ∧
    pyEndsWith (repChar 'a' 300) "…" = false ∧
    pyEndsWith (repChar 'a' 300) "..." = false ∧
    (repChar 'a' 400).data.get? 300 = some 'a' :=
  ⟨rfl, rfl, rfl, rfl⟩

/-- C5 (amended): both truncations are plain code-point slices to their budget
(200 for eastmoney, 300 for ths).  A slice never splits inside a character —
the result is a character-level prefix of the input — and respects the length
budget, but no word/punctuation boundary is sought and no ellipsis marker is
appended (the counterexample exhibits that). -/
theorem spec_c5_truncation :
    (∀ (n : Nat) (s : String), (pySlice n s).data = s.data.take n ∧ (pySlice n s).data <+: s.data) ∧
    (∀ paras : List String, (emSummaryOfParas paras).length ≤ 200) ∧
    (∀ text : String, text ≠ "" → thsSummaryTrunc text = some (pySlice 300 text)) ∧
    (∀ text : String, (pySlice 300 text).length ≤ 300) := by
  refine ⟨fun n s => ⟨rfl, List.take_prefix n s.data⟩, ?_, ?_, ?_⟩
  · intro paras
    exact List.length_take_le _ _
  · intro text h
    simp [thsSummaryTrunc, h]
  · intro text
    exact List.length_take_le _ _

/-- Witness for C5's amended theorem at a concrete input. -/
theorem spec_c5_witness :
    thsSummaryTrunc "本公司今日发布公告" = some (pySlice 300 "本公司今日发布公告") :=
  spec_c5_truncation.2.2.1 _ (by decide)

/-! ## Claim C6 -/

/-- C6, as stated, is false on the code: the priority list of
`_union_fieldnames` is `site, title, url, pub_time, summary` — not the
claim's `title, url, pub_time, source, summary`.  For a row carrying a
`source` field the code puts `source` into the alphabetical remainder,
after `summary`, not in a priority slot. -/
theorem spec_c6_counterexample :
    unionFieldnames [[("title", "标题"), ("url", "https://x"), ("pub_time", "2025-04-01 10:00"),
        ("source", "eastmoney"), ("summary", "摘要")]]
      = ["title", "url", "pub_time", "summary", "source"] ∧
    claimUnionFieldnames [[("title", "标题"), ("url", "https://x"), ("pub_time", "2025-04-01 10:00"),
        ("source", "eastmoney"), ("summary", "摘要")]]
      = ["title", "url", "pub_time", "source", "summary"] ∧
    unionFieldnames [[("title", "标题"), ("url", "https://x"), ("pub_time", "2025-04-01 10:00"),
        ("source", "eastmoney"), ("summary", "摘要")]]
      ≠ claimUnionFieldnames [[("title", "标题"), ("url", "https://x"), ("pub_time", "2025-04-01 10:00"),
        ("source", "eastmoney"), ("summary", "摘要")]] := by
  refine ⟨rfl, rfl, by decide⟩

/-- C6 (amended): the header is the code's priority list
(`site, title, url, pub_time, summary`) restricted to fields that occur,
followed by the remaining field names in ascending order; `source` is not a
priority field (while `site` is); the header enumerates exactly the union of
the rows' field names; and each data row carries exactly the header's
columns, so record fields outside them are dropped silently. -/
theorem spec_c6_header :
    ("source" ∉ priorityFields ∧ "site" ∈ priorityFields) ∧
    (∀ rows : List Row, (unionExtra rows).Pairwise (fun a b => a ≤ b)) ∧
    (∀ (rows : List Row) (k : String), k ∈ unionFieldnames rows ↔ k ∈ keysOf rows) ∧
    (∀ (fieldnames : List String) (r : Row), (writeCsvRow fieldnames r).length = fieldnames.length) := by
  refine ⟨⟨by decide, by decide⟩, ?_, ?_, ?_⟩
  · intro rows
    exact pairwise_sortStrings _
  · intro rows k
    unfold unionFieldnames unionExtra
    constructor
    · intro hk
      rcases List.mem_append.mp hk with h | h
      · have hc := (List.mem_filter.mp h).2
        simpa using hc
      · rw [mem_sortStrings] at h
        exact (List.mem_filter.mp h).1
    · intro hk
      by_cases hA : k ∈ unionOrdered rows
      · exact List.mem_append.mpr (Or.inl hA)
      · refine List.mem_append.mpr (Or.inr ?_)
        rw [mem_sortStrings]
        refine List.mem_filter.mpr ⟨hk, ?_⟩
        simpa using hA
  · intro fieldnames r
    exact List.length_map _ _

/-- Witness for C6's amended theorem at a concrete row set. -/
theorem spec_c6_witness :
    ("category" : String) ∈ unionFieldnames [[("title", "t"), ("category", "要闻")]] :=
  (spec_c6_header.2.2.1 [[("title", "t"), ("category", "要闻")]] "category").mpr (by decide)


/-! ## Claim C7 -/

/-- C7 (confirmed): in `_try_get`, a 404/410 status error raises immediately —
after any run of retryable failures, the attempt that hits 404/410 is the
last one made; if every attempt fails retryably, the loop runs the full
`retries` attempts and then raises the error of the last attempt; and each
per-attempt sleep `min(backoff ** i, 5)` never exceeds 5 seconds. -/
theorem spec_c7_retry :
    (∀ (resp : Nat → GetOutcome) (retries i : Nat) (s : Nat),
      i < retries → (∀ j, j < i → retryable (resp j) = true) →
      resp i = .httpErr s → (s = 404 ∨ s = 410) →
      tryGet resp retries = (.raised (.httpErr s), i + 1)) ∧
    (∀ (resp : Nat → GetOutcome) (retries : Nat),
      1 ≤ retries → (∀ j, j < retries → retryable (resp j) = true) →
      tryGet resp retries = (.raised (resp (retries - 1)), retries)) ∧
    (∀ (b : ℚ) (i : Nat), backoffSleep b i ≤ 5) := by
  have fatalStep : ∀ (resp : Nat → GetOutcome) (k : Nat), ∀ (n i : Nat) (last : Option GetOutcome) (s : Nat),
      k < n → (∀ j, i ≤ j → j < i + k → retryable (resp j) = true) →
      resp (i + k) = .httpErr s → (s = 404 ∨ s = 410) →
      tryGetGo resp i last n = (.raised (.httpErr s), i + k + 1) := by
    intro resp k
    induction k with
    | zero =>
      intro n i last s hk _ hr hs
      obtain ⟨m, rfl⟩ : ∃ m, n = m + 1 := ⟨n - 1, by omega⟩
      rw [tryGetGo]
      simp only [Nat.add_zero] at hr
      rw [hr]
      have hse : (s = 404 || s = 410) = true := by
        rcases hs with rfl | rfl <;> rfl
      simp [hse]
    | succ k ih =>
      intro n i last s hk hret hr hs
      obtain ⟨m, rfl⟩ : ∃ m, n = m + 1 := ⟨n - 1, by omega⟩
      have h0 : retryable (resp i) = true := hret i (le_refl i) (by omega)
      rw [tryGetGo]
      cases hri : resp i with
      | ok => rw [hri] at h0; simp [retryable] at h0
      | reqErr =>
        show tryGetGo resp (i + 1) (some .reqErr) m = (TryGetRes.raised (.httpErr s), i + (k + 1) + 1)
        have e : i + 1 + k = i + (k + 1) := by omega
        rw [ih m (i + 1) (some .reqErr) s (by omega)
          (fun j h1 h2 => hret j (by omega) (by omega)) (by rw [e]; exact hr) hs]
        have e2 : i + 1 + k + 1 = i + (k + 1) + 1 := by omega
        rw [e2]
      | httpErr s' =>
        rw [hri] at h0
        have hs' : (s' = 404 || s' = 410) = false := by
          simpa [retryable] using h0
        simp only [hs', Bool.false_eq_true, if_false]
        have e : i + 1 + k = i + (k + 1) := by omega
        rw [ih m (i + 1) (some (.httpErr s')) s (by omega)
          (fun j h1 h2 => hret j (by omega) (by omega)) (by rw [e]; exact hr) hs]
        have e2 : i + 1 + k + 1 = i + (k + 1) + 1 := by omega
        rw [e2]
  have exhaust : ∀ (resp : Nat → GetOutcome) (n : Nat), 1 ≤ n → ∀ (i : Nat) (last : Option GetOutcome),
      (∀ j, i ≤ j → j < i + n → retryable (resp j) = true) →
      tryGetGo resp i last n = (.raised (resp (i + n - 1)), i + n) := by
    intro resp n
    induction n with
    | zero => omega
    | succ m ih =>
      intro _ i last hret
      have h0 : retryable (resp i) = true := hret i (le_refl i) (by omega)
      rw [tryGetGo]
      cases hri : resp i with
      | ok => rw [hri] at h0; simp [retryable] at h0
      | reqErr =>
        show tryGetGo resp (i + 1) (some .reqErr) m = (TryGetRes.raised (resp (i + (m + 1) - 1)), i + (m + 1))
        cases Nat.eq_zero_or_pos m with
        | inl hm =>
          subst hm
          rw [tryGetGo]
          simp [hri]
        | inr hm =>
          rw [ih hm (i + 1) (some .reqErr) (fun j h1 h2 => hret j (by omega) (by omega))]
          have e1 : i + 1 + m - 1 = i + (m + 1) - 1 := by omega
          have e2 : i + 1 + m = i + (m + 1) := by omega
          rw [e1, e2]
      | httpErr s' =>
        rw [hri] at h0
        have hs' : (s' = 404 || s' = 410) = false := by
          simpa [retryable] using h0
        simp only [hs', Bool.false_eq_true, if_false]
        cases Nat.eq_zero_or_pos m with
        | inl hm =>
          subst hm
          rw [tryGetGo]
          simp [hri]
        | inr hm =>
          rw [ih hm (i + 1) (some (.httpErr s')) (fun j h1 h2 => hret j (by omega) (by omega))]
          have e1 : i + 1 + m - 1 = i + (m + 1) - 1 := by omega
          have e2 : i + 1 + m = i + (m + 1) := by omega
          rw [e1, e2]
  refine ⟨?_, ?_, ?_⟩
  · intro resp retries i s hi hret hr hs
    unfold tryGet
    simpa using fatalStep resp i retries 0 none s (by omega)
      (fun j h1 h2 => hret j (by omega)) (by simpa using hr) hs
  · intro resp retries h1 hret
    unfold tryGet
    simpa using exhaust resp retries h1 0 none (fun j hj1 hj2 => hret j (by omega))
  · intro b i
    unfold backoffSleep
    by_cases h : b ^ i < 5
    · rw [if_pos h]; exact le_of_lt h
    · rw [if_neg h]

/-- Witness for C7's theorem at concrete attempt outcomes. -/
theorem spec_c7_witness :
    tryGet (fun _ => .httpErr 404) 3 = (.raised (.httpErr 404), 1) ∧
    tryGet (fun _ => .reqErr) 3 = (.raised .reqErr, 3) ∧
    backoffSleep (3 / 2 : ℚ) 2 ≤ 5 :=
  ⟨spec_c7_retry.1 _ 3 0 404 (by omega) (fun j hj => absurd hj (Nat.not_lt_zero j)) rfl (Or.inl rfl),
   spec_c7_retry.2.1 (fun _ => .reqErr) 3 (by omega) (fun j hj => rfl),
   spec_c7_retry.2.2 _ 2⟩

/-! ## Claim C8 -/

/-- C8 (confirmed): the recency cutoff is inclusive.  In eastmoney and cs a
record timestamped exactly `now - since_days` days survives the filter and
one second earlier is dropped; end to end, the boundary eastmoney record is
returned and the one-second-earlier record is not. -/
theorem spec_c8_boundary :
    (∀ now sd : Int,
      emRecencyDrop (emCutoff now sd) (some (emCutoff now sd)) = false ∧
      emRecencyDrop (emCutoff now sd) (some (emCutoff now sd - 1)) = true) ∧
    (∀ now d : Int, d ≠ 0 →
      csSinceEdge now (some d) = some (now - daySecs * d) ∧
      csRecencyDrop (csSinceEdge now (some d)) (some (now - daySecs * d)) = false ∧
      csRecencyDrop (csSinceEdge now (some d)) (some (now - daySecs * d - 1)) = true) ∧
    (emFetchList
        (fun _ => some { title := "边界", url := "u", pub_time := some (emCutoff 1000000 1), summary := "", category := "" })
        [("u", "c")] 5 1 none 1000000
      = [{ title := "边界", url := "u", pub_time := some (emCutoff 1000000 1), summary := "", category := "c" }]) ∧
    (emFetchList
        (fun _ => some { title := "过期", url := "u", pub_time := some (emCutoff 1000000 1 - 1), summary := "", category := "" })
        [("u", "c")] 5 1 none 1000000
      = []) := by
  refine ⟨?_, ?_, by decide, by decide⟩
  · intro now sd
    constructor
    · simp [emRecencyDrop]
    · simp [emRecencyDrop]
  · intro now d hd
    refine ⟨by simp [csSinceEdge, hd], ?_, ?_⟩
    · simp [csRecencyDrop, csSinceEdge, hd]
    · simp [csRecencyDrop, csSinceEdge, hd]

/-- Witness for C8's theorem at concrete times. -/
theorem spec_c8_witness :
    emRecencyDrop (emCutoff 1000000 1) (some (emCutoff 1000000 1)) = false ∧
    csRecencyDrop (csSinceEdge 1000000 (some 1)) (some (1000000 - daySecs * 1)) = false ∧
    csRecencyDrop (csSinceEdge 1000000 (some 1)) (some (1000000 - daySecs * 1 - 1)) = true :=
  ⟨(spec_c8_boundary.1 1000000 1).1,
   (spec_c8_boundary.2.1 1000000 1 (by decide)).2.1,
   (spec_c8_boundary.2.1 1000000 1 (by decide)).2.2⟩

/-! ## Claim C9 -/

/-- C9, as stated, is false on the code for cs: the keyword is matched against
the lower-cased concatenation `title + " " + content`, so keyword `"a b"`
keeps a record with title `"A"` and content `"B"` even though the keyword
occurs in neither the title nor the body individually — the "only if"
direction of the claimed iff fails, end to end as well. -/
theorem spec_c9_counterexample :
    csKeywordKeep (some "a b") "A" "B" = true ∧
    occursCI "a b" "A" = false ∧
    occursCI "a b" "B" = false ∧
    csFetchList (fun u => csParseDetail "A" (some 10) "B" u) ["u"] 5 none (some "a b") 1000
      = [{ url := "u", title := "A", pub_dt := some 10, content := "B" }] :=
  ⟨rfl, rfl, rfl, rfl⟩

/-- C9 (amended): with no keyword nothing is filtered, in every source;
eastmoney tests the lower-cased keyword against title and summary separately,
exactly the claimed iff; cs and ths test it against the lower-cased
concatenation `title + " " + body`, which also admits matches spanning the
boundary between the two fields; and matching is case-insensitive, so title
`"A股"` is kept under keyword `"a股"`. -/
theorem spec_c9_keyword :
    (∀ t s : String, emKeywordKeep none t s = true) ∧
    (∀ t c : String, csKeywordKeep none t c = true) ∧
    (∀ t s : String, thsKeywordKeep none t s = true) ∧
    (∀ kw t s : String, kw ≠ "" →
      emKeywordKeep (some kw) t s = (occursCI kw t || occursCI kw s)) ∧
    (∀ kw t c : String, kw ≠ "" →
      csKeywordKeep (some kw) t c = occursCI kw (t ++ " " ++ c)) ∧
    (∀ kw t s : String, kw ≠ "" →
      thsKeywordKeep (some kw) t s = occursCI kw (t ++ " " ++ s)) ∧
    emKeywordKeep (some "a股") "A股" "" = true := by
  refine ⟨fun t s => rfl, fun t c => rfl, fun t s => rfl, ?_, ?_, ?_, by decide⟩
  · intro kw t s h
    simp [emKeywordKeep, occursCI, h]
  · intro kw t c h
    simp [csKeywordKeep, occursCI, h]
  · intro kw t s h
    simp [thsKeywordKeep, occursCI, h]

/-- Witness for C9's amended theorem at a concrete keyword. -/
theorem spec_c9_witness :
    emKeywordKeep (some "股市") "今日股市行情" "" = (occursCI "股市" "今日股市行情" || occursCI "股市" "") :=
  spec_c9_keyword.2.2.2.1 "股市" "今日股市行情" "" (by decide)

/-! ## Claim C10 -/

/-- C10 (confirmed): with zero records, `dump_csv` returns after the warning
without producing any file content — no file is created, truncated or written
— and `main` still completes with exit code 0, so the requested output path
is left untouched. -/
theorem spec_c10_empty_no_write :
    dumpCsv [] = none ∧ mainExit (.ok []) = (0, none) :=
  ⟨rfl, rfl⟩
